import Mathlib

/-!
Shallow embedding of the devkit-rl rate-limiter library.

Time is modelled in nanoseconds as `Nat`: a `std::time::Instant` is the
number of nanoseconds since an arbitrary epoch, a `Duration` is a
nanosecond count.  `u64` counters are modelled as `Nat`; operations with
defined wrap/saturate/truncate semantics in the source
(`saturating_add`, `checked_mul`, `as u32`, `as u64`, and the plain u64
arithmetic of the admission sums, which wraps in a release build — a
debug build panics on the overflow instead) carry an explicit `% 2 ^ w`
or `min _ (2 ^ w - 1)`.  The source computes elapsed-interval counts with
`Duration::div_duration_f64` followed by an `as` cast; the f64 division
is modelled as exact natural floor division (its mathematically intended
value), while the integer cast that follows it is modelled exactly
(f64→u32 and f64→u64 `as` casts saturate, u64→u32 `as` casts truncate).
`Instant` subtraction is modelled by truncated `Nat` subtraction.
-/

namespace DevkitRl

/-- State of `FixedWindowInner` (src/devkit-rl/src/fixed_window.rs). -/
structure FixedWindowInner where
  size : Nat
  count : Nat
  interval : Nat
  last_update : Nat
  next_win_time : Nat
deriving DecidableEq

/-- Model of `FixedWindowInner::new`: the source calls `Instant::now()`
internally; here the current instant is the explicit `now` argument. -/
def FixedWindowInner.new (size interval now : Nat) : FixedWindowInner :=
  { size := size
    count := 0
    interval := interval
    last_update := now
    next_win_time := now + interval }

/-- Elapsed-window count in `FixedWindow::allow_n`: the source computes
`(now - inner.last_update).div_duration_f64(inner.interval) as u32`.
Modelled as exact floor division saturated at `u32::MAX` (the f64→u32
`as` cast saturates). -/
def FixedWindowInner.passWinCount (s : FixedWindowInner) (now : Nat) : Nat :=
  min ((now - s.last_update) / s.interval) (2 ^ 32 - 1)

/-- The window-reset step of `FixedWindow::allow_n` (the
`if now >= inner.next_win_time` block). -/
def FixedWindowInner.advance (s : FixedWindowInner) (now : Nat) : FixedWindowInner :=
  if s.next_win_time ≤ now then
    { s with
        count := 0
        last_update := s.last_update + s.interval * s.passWinCount now
        next_win_time := s.last_update + s.interval * s.passWinCount now + s.interval }
  else s

/-- Model of `FixedWindow::allow_n`: reset the window if due, then admit
iff `count + n ≤ size`.  The sum `inner.count + n` is a plain u64 add:
in a release build it wraps modulo `2 ^ 64` (a debug build panics on
the overflow), and the wrapped value is both compared against `size`
and stored by `count += n`. -/
def FixedWindowInner.allowN (s : FixedWindowInner) (n now : Nat) : Bool × FixedWindowInner :=
  let s1 := s.advance now
  if s1.size < (s1.count + n) % 2 ^ 64 then (false, s1)
  else (true, { s1 with count := (s1.count + n) % 2 ^ 64 })

/-- State of `TokenBucketInner` (src/devkit-rl/src/token_bucket.rs). -/
structure TokenBucketInner where
  tokens : Nat
  capacity : Nat
  refill_rate : Nat
  refill_interval : Nat
  last_refill_time : Nat
deriving DecidableEq

/-- Model of `TokenBucket::new`: the bucket starts full. -/
def TokenBucketInner.new (capacity refill_rate refill_interval now : Nat) : TokenBucketInner :=
  { tokens := capacity
    capacity := capacity
    refill_rate := refill_rate
    refill_interval := refill_interval
    last_refill_time := now }

/-- Model of `TokenBucketInner::advance`.  `interval_count` is
`elapsed.div_duration_f64(refill_interval) as u64` (floor division
saturated at `u64::MAX`); `tokens_to_add` is the plain u64 product
(wrapping, release semantics); `saturating_add` then `min capacity` cap
the tokens; the source then runs
`refill_interval.checked_mul(interval_count as u32)` — the u64 count is
silently truncated to u32 by the `as` cast.  The `checked_mul` and the
`checked_add` on the instant cannot overflow here because
`refill_interval * (interval_count % 2 ^ 32) ≤ refill_interval *
(elapsed / refill_interval) ≤ elapsed`, so the model stays total. -/
def TokenBucketInner.advance (s : TokenBucketInner) (now : Nat) : TokenBucketInner :=
  let elapsed := now - s.last_refill_time
  if elapsed < s.refill_interval then s
  else
    let interval_count := min (elapsed / s.refill_interval) (2 ^ 64 - 1)
    let tokens_to_add := interval_count * s.refill_rate % 2 ^ 64
    { s with
        tokens := min (min (s.tokens + tokens_to_add) (2 ^ 64 - 1)) s.capacity
        last_refill_time := s.last_refill_time + s.refill_interval * (interval_count % 2 ^ 32) }

/-- Model of `TokenBucket::allow_n`: refill first, then admit iff
`n ≤ tokens`. -/
def TokenBucketInner.allowN (s : TokenBucketInner) (n now : Nat) : Bool × TokenBucketInner :=
  let s1 := s.advance now
  if s1.tokens < n then (false, s1)
  else (true, { s1 with tokens := s1.tokens - n })

/-- State of `SlidingWindowLogInner` (src/devkit-rl/src/sliding_window_log.rs). -/
structure SlidingWindowLogInner where
  size : Nat
  interval : Nat
  logs : List Nat
deriving DecidableEq

/-- Model of `SlidingWindowLog::new`. -/
def SlidingWindowLogInner.new (size interval : Nat) : SlidingWindowLogInner :=
  { size := size, interval := interval, logs := [] }

/-- Model of `SlidingWindowLogInner::try_accept`: accept and append `n`
copies of `now` iff `logs.len() + n ≤ size`.  The sum
`self.logs.len() as u64 + n` is a plain u64 add that wraps modulo
`2 ^ 64` in a release build (a debug build panics).  When the
(possibly wrapped) test passes, the source runs `vec![now; n as usize]`;
the model records the appended log — for an `n` beyond the allocator's
limits the source aborts inside that allocation, after the accept
decision has been taken. -/
def SlidingWindowLogInner.tryAccept (s : SlidingWindowLogInner) (n now : Nat) :
    Bool × SlidingWindowLogInner :=
  if (s.logs.length + n) % 2 ^ 64 ≤ s.size then
    (true, { s with logs := s.logs ++ List.replicate n now })
  else (false, s)

/-- Model of `SlidingWindowLogInner::remove_older_than`:
`logs.retain(|t| t >= threshold)`. -/
def SlidingWindowLogInner.removeOlderThan (s : SlidingWindowLogInner) (threshold : Nat) :
    SlidingWindowLogInner :=
  { s with logs := s.logs.filter (fun t => threshold ≤ t) }

/-- Model of `SlidingWindowLog::allow_n`: fast path `try_accept`; on
failure prune entries older than `now - interval` (truncated `Nat`
subtraction models the `Instant` subtraction) and retry once.  A failed
`try_accept` leaves the state unchanged, so the prune runs on `s`. -/
def SlidingWindowLogInner.allowN (s : SlidingWindowLogInner) (n now : Nat) :
    Bool × SlidingWindowLogInner :=
  let r1 := s.tryAccept n now
  if r1.1 then r1
  else (s.removeOlderThan (now - s.interval)).tryAccept n now

/-- State of `SlidingWindowCountInner` (src/devkit-rl/src/sliding_window_count.rs). -/
structure SlidingWindowCountInner where
  buckets : List Nat
  win_size : Nat
  bucket_interval : Nat
  last_update : Nat
  last_index : Nat
deriving DecidableEq

/-- Model of `SlidingWindowCount::new`: `bucket_interval` is
`interval.div_f64(bucket_count)` — with `bucket_count = 0` the division
produces a non-finite value and `div_f64` panics, so construction fails
(`none`); otherwise the division is modelled as floor division. -/
def SlidingWindowCountInner.new (win_size interval bucket_count now : Nat) :
    Option SlidingWindowCountInner :=
  if bucket_count = 0 then none
  else some
    { buckets := List.replicate bucket_count 0
      win_size := win_size
      bucket_interval := interval / bucket_count
      last_update := now
      last_index := 0 }

/-- Model of `SlidingWindowCountInner::bucket_passed`: floor of
`elapsed / bucket_interval`, capped at `buckets.len()` (the source caps
with `if count > len { len } else { count }`; the saturation of the
f64→usize cast is subsumed by that cap). -/
def SlidingWindowCountInner.bucketPassed (s : SlidingWindowCountInner) (now : Nat) : Nat :=
  min ((now - s.last_update) / s.bucket_interval) s.buckets.length

/-- The zeroing loop of `update_buckets`:
`for i in 0..bucket_passed { buckets[(i + last_index) % len] = 0 }`.
`List.set` preserves length, so the modulus `bs.length` matches the
source's `self.buckets.len()` at every iteration. -/
def clearFrom (bs : List Nat) (last : Nat) : Nat → List Nat
  | 0 => bs
  | p + 1 => (clearFrom bs last p).set ((p + last) % bs.length) 0

/-- Model of `SlidingWindowCountInner::update_buckets`. -/
def SlidingWindowCountInner.updateBuckets (s : SlidingWindowCountInner) (now : Nat) :
    SlidingWindowCountInner :=
  { s with
      buckets := clearFrom s.buckets s.last_index (s.bucketPassed now)
      last_index := (s.last_index + s.bucketPassed now) % s.buckets.length
      last_update := now }

/-- Model of `SlidingWindowCountInner::total_count`. -/
def SlidingWindowCountInner.totalCount (s : SlidingWindowCountInner) : Nat :=
  s.buckets.sum

/-- Model of `SlidingWindowCountInner::add_requests`:
`buckets[last_index] += n` — a plain u64 add, wrapping modulo `2 ^ 64`
in a release build (panicking in debug). -/
def SlidingWindowCountInner.addRequests (s : SlidingWindowCountInner) (n : Nat) :
    SlidingWindowCountInner :=
  { s with buckets :=
      s.buckets.set s.last_index ((s.buckets.getD s.last_index 0 + n) % 2 ^ 64) }

/-- Model of `SlidingWindowCount::allow_n`: update the buckets, then
admit iff `total_count + n ≤ win_size`.  The sum `total_count() + n` is
a plain u64 add that wraps modulo `2 ^ 64` in a release build (panics
in debug).  `totalCount` itself is the exact sum: the source's iterator
sum is u64 arithmetic too, but within the invariant
`sum ≤ win_size < 2 ^ 64` it cannot overflow. -/
def SlidingWindowCountInner.allowN (s : SlidingWindowCountInner) (n now : Nat) :
    Bool × SlidingWindowCountInner :=
  let s1 := s.updateBuckets now
  if (s1.totalCount + n) % 2 ^ 64 ≤ s1.win_size then (true, s1.addRequests n)
  else (false, s1)

/-- Lock-protected scalar state of `LeakyBucketInner`
(src/devkit-rl/src/leaky_bucket.rs); the waiter channel is modelled
separately. -/
structure LeakyBucketInner where
  capacity : Nat
  current_level : Nat
  leak_rate : Nat
  leak_interval : Nat
  last_leaktime : Nat
deriving DecidableEq

/-- Model of `LeakyBucketInner::new` (scalar fields; the channel and the
spawned thread are modelled by `leakIter` and `LBStep`). -/
def LeakyBucketInner.new (leak_rate capacity leak_interval now : Nat) : LeakyBucketInner :=
  { capacity := capacity
    current_level := 0
    leak_rate := leak_rate
    leak_interval := leak_interval
    last_leaktime := now }

/-- Clock state of the background leak loop in `LeakyBucketInner::start`:
`lastLeak` is `last_leaktime`, `time` the loop thread's current instant. -/
structure LeakLoopState where
  lastLeak : Nat
  time : Nat
deriving DecidableEq

/-- The `for _ in 0..leak_rate { if let Ok(tx) = rx.recv() { tx.send(()) } }`
body of the leak loop.  `arrivals` are the enqueue instants of the
pending waiters in FIFO channel order; `rx.recv()` BLOCKS on an empty
channel, so receiving a waiter that arrives at instant `a` completes at
`max time a`.  Returns the signal instants, the instant after the batch
and the remaining queue; `none` models the loop still blocked in `recv`
because the schedule supplies fewer than `rate` waiters. -/
def signalBatch : Nat → Nat → List Nat → Option (List Nat × Nat × List Nat)
  | 0, t, arrivals => some ([], t, arrivals)
  | _ + 1, _, [] => none
  | r + 1, t, a :: as =>
    match signalBatch r (max t a) as with
    | none => none
    | some (rel, t2, rest) => some (max t a :: rel, t2, rest)

/-- One iteration of the leak loop in `LeakyBucketInner::start`: compute
`wait_time = leak_interval.saturating_sub(now - last_leaktime)`, sleep,
set `last_leaktime` to the post-sleep instant, then signal a batch of
`leak_rate` waiters (blocking in `recv` for each). -/
def leakIter (rate interval : Nat) (s : LeakLoopState) (arrivals : List Nat) :
    Option (List Nat × LeakLoopState × List Nat) :=
  let t1 := s.time + (interval - (s.time - s.lastLeak))
  match signalBatch rate t1 arrivals with
  | none => none
  | some (rel, t2, rest) => some (rel, ⟨t1, t2⟩, rest)

/-- Atomic events of the `LeakyBucket` caller protocol.  `reserve c` is
caller `c`'s `try_allow` critical section, `enqueue c` its
`create_notify` critical section (sending its oneshot sender into the
FIFO channel), `leak` one `rx.recv()` + signal by the background loop.
`reserve` and `enqueue` are separate lock acquisitions in the source, so
arbitrary interleavings of distinct callers' events are possible. -/
inductive LBEvent where
  | reserve (c : Nat)
  | enqueue (c : Nat)
  | leak
deriving DecidableEq

/-- Global state for the `LeakyBucket` interleaving semantics:
`reserved` records callers whose `try_allow` succeeded, in lock order;
`queue` is the FIFO channel content; `released` the callers signalled by
the leak loop, in signal order. -/
structure LBState where
  capacity : Nat
  level : Nat
  reserved : List Nat
  queue : List Nat
  released : List Nat
deriving DecidableEq

/-- Step function of the interleaving semantics, following the source:
`try_allow` rejects iff `current_level >= capacity`, else increments;
`create_notify` appends to the channel; the leak loop pops the channel
head and signals it (on an empty queue `recv` blocks, modelled as a
no-op step). -/
def LBStep (s : LBState) : LBEvent → LBState
  | LBEvent.reserve c =>
    if s.capacity ≤ s.level then s
    else { s with level := s.level + 1, reserved := s.reserved ++ [c] }
  | LBEvent.enqueue c => { s with queue := s.queue ++ [c] }
  | LBEvent.leak =>
    match s.queue with
    | [] => s
    | c :: q => { s with queue := q, released := s.released ++ [c] }

/-- Run an event trace from the initial state of a fresh `LeakyBucket`. -/
def LBRun (capacity : Nat) (es : List LBEvent) : LBState :=
  es.foldl LBStep
    { capacity := capacity, level := 0, reserved := [], queue := [], released := [] }

/-- The callers enqueued by a trace, in channel (FIFO) order. -/
def enqueuedOf : List LBEvent → List Nat
  | [] => []
  | LBEvent.enqueue c :: es => c :: enqueuedOf es
  | _ :: es => enqueuedOf es

/-! ## Helper lemmas -/

theorem list_sum_set_zero_le (l : List Nat) (i : Nat) : (l.set i 0).sum ≤ l.sum := by
  induction l generalizing i with
  | nil => simp
  | cons a t ih =>
    cases i with
    | zero => simp
    | succ j =>
      simp only [List.set_cons_succ, List.sum_cons]
      exact Nat.add_le_add_left (ih j) a

theorem list_sum_set_add (l : List Nat) (i n : Nat) (h : i < l.length) :
    (l.set i (l.getD i 0 + n)).sum = l.sum + n := by
  induction l generalizing i with
  | nil => simp at h
  | cons a t ih =>
    cases i with
    | zero => simp [List.getD_cons_zero]; omega
    | succ j =>
      simp only [List.set_cons_succ, List.sum_cons, List.getD_cons_succ]
      rw [ih j (by simpa using h)]
      omega

theorem list_getD_set_eq (l : List Nat) (i x : Nat) (h : i < l.length) :
    (l.set i x).getD i 0 = x := by
  induction l generalizing i with
  | nil => simp at h
  | cons a t ih =>
    cases i with
    | zero => simp
    | succ j => simpa using ih j (by simpa using h)

theorem list_getD_set_ne (l : List Nat) (i j x : Nat) (h : i ≠ j) :
    (l.set i x).getD j 0 = l.getD j 0 := by
  induction l generalizing i j with
  | nil => simp
  | cons a t ih =>
    cases i with
    | zero =>
      cases j with
      | zero => exact absurd rfl h
      | succ k => simp
    | succ i2 =>
      cases j with
      | zero => simp
      | succ k =>
        simp only [List.set_cons_succ, List.getD_cons_succ]
        exact ih i2 k (by omega)

theorem list_set_getD_self (l : List Nat) (i : Nat) : l.set i (l.getD i 0) = l := by
  induction l generalizing i with
  | nil => simp
  | cons a t ih =>
    cases i with
    | zero => simp
    | succ j =>
      simp only [List.set_cons_succ, List.getD_cons_succ]
      rw [ih j]

theorem list_getD_replicate (n j : Nat) : (List.replicate n (0 : Nat)).getD j 0 = 0 := by
  induction n generalizing j with
  | zero => simp
  | succ m ih =>
    cases j with
    | zero => simp [List.replicate]
    | succ k => simp [List.replicate, ih]

theorem list_getD_big (l : List Nat) (j : Nat) (h : l.length ≤ j) : l.getD j 0 = 0 := by
  induction l generalizing j with
  | nil => simp
  | cons a t ih =>
    cases j with
    | zero => simp at h
    | succ k => simpa using ih k (by simpa using h)

theorem list_getD_le_sum (l : List Nat) (i : Nat) : l.getD i 0 ≤ l.sum := by
  induction l generalizing i with
  | nil => simp
  | cons a t ih =>
    cases i with
    | zero => simp
    | succ j =>
      simp only [List.getD_cons_succ, List.sum_cons]
      exact Nat.le_trans (ih j) (Nat.le_add_left _ _)

theorem list_ext_getD (l1 l2 : List Nat) (hlen : l1.length = l2.length)
    (h : ∀ j, l1.getD j 0 = l2.getD j 0) : l1 = l2 := by
  induction l1 generalizing l2 with
  | nil => cases l2 with
    | nil => rfl
    | cons b t => simp at hlen
  | cons a t ih =>
    cases l2 with
    | nil => simp at hlen
    | cons b u =>
      have h0 := h 0
      simp at h0
      have ht : t = u := by
        apply ih
        · simpa using hlen
        · intro j
          have := h (j + 1)
          simpa using this
      rw [h0, ht]

theorem mod_coverage (len last j : Nat) (hlen : 0 < len) (hj : j < len) :
    ∃ i, i < len ∧ (i + last) % len = j := by
  refine ⟨(j + len - last % len) % len, Nat.mod_lt _ hlen, ?_⟩
  have hr : last % len < len := Nat.mod_lt _ hlen
  have hd := Nat.div_add_mod last len
  have hm : len * (last / len + 1) = len * (last / len) + len := Nat.mul_succ len _
  have he : j + len - last % len + last = j + len * (last / len + 1) := by omega
  rw [Nat.mod_add_mod, he, Nat.add_mul_mod_self_left, Nat.mod_eq_of_lt hj]

theorem clearFrom_nil (last p : Nat) : clearFrom [] last p = [] := by
  induction p with
  | zero => rfl
  | succ p ih => simp [clearFrom, ih]

theorem clearFrom_length (bs : List Nat) (last p : Nat) :
    (clearFrom bs last p).length = bs.length := by
  induction p with
  | zero => rfl
  | succ p ih => simp [clearFrom, List.length_set, ih]

theorem clearFrom_sum_le (bs : List Nat) (last p : Nat) :
    (clearFrom bs last p).sum ≤ bs.sum := by
  induction p with
  | zero => exact Nat.le_refl _
  | succ p ih => exact Nat.le_trans (list_sum_set_zero_le _ _) ih

theorem clearFrom_getD_miss (bs : List Nat) (last p j : Nat)
    (h : ¬ ∃ i, i < p ∧ (i + last) % bs.length = j) :
    (clearFrom bs last p).getD j 0 = bs.getD j 0 := by
  induction p with
  | zero => rfl
  | succ p ih =>
    have hne : (p + last) % bs.length ≠ j := fun he => h ⟨p, Nat.lt_succ_self p, he⟩
    have h2 : ¬ ∃ i, i < p ∧ (i + last) % bs.length = j := by
      rintro ⟨i, hi, he⟩
      exact h ⟨i, Nat.lt_succ_of_lt hi, he⟩
    simp only [clearFrom]
    rw [list_getD_set_ne _ _ _ _ hne, ih h2]

theorem clearFrom_getD_hit (bs : List Nat) (last p j : Nat) (hlen : 0 < bs.length)
    (h : ∃ i, i < p ∧ (i + last) % bs.length = j) :
    (clearFrom bs last p).getD j 0 = 0 := by
  induction p with
  | zero =>
    obtain ⟨i, hi, _⟩ := h
    exact absurd hi (Nat.not_lt_zero i)
  | succ p ih =>
    obtain ⟨i, hi, hij⟩ := h
    by_cases hj : (p + last) % bs.length = j
    · simp only [clearFrom]
      have hjlen : j < (clearFrom bs last p).length := by
        rw [clearFrom_length, ← hj]
        exact Nat.mod_lt _ hlen
      rw [hj]
      exact list_getD_set_eq _ _ _ hjlen
    · have hip : i < p := by
        rcases Nat.lt_succ_iff_lt_or_eq.mp hi with h1 | h1
        · exact h1
        · subst h1
          exact absurd hij hj
      simp only [clearFrom]
      rw [list_getD_set_ne _ _ _ _ hj]
      exact ih ⟨i, hip, hij⟩

theorem clearFrom_all (bs : List Nat) (last : Nat) (hlen : 0 < bs.length) :
    clearFrom bs last bs.length = List.replicate bs.length 0 := by
  apply list_ext_getD
  · rw [clearFrom_length, List.length_replicate]
  · intro j
    rcases Nat.lt_or_ge j bs.length with hj | hj
    · rw [clearFrom_getD_hit bs last _ j hlen (mod_coverage _ _ _ hlen hj), list_getD_replicate]
    · rw [list_getD_big _ _ (by rw [clearFrom_length]; exact hj),
        list_getD_big _ _ (by rw [List.length_replicate]; exact hj)]

theorem signalBatch_spec (r : Nat) : ∀ (t : Nat) (arrivals rel rest : List Nat) (t2 : Nat),
    signalBatch r t arrivals = some (rel, t2, rest) →
    rel.length = r ∧ rest = arrivals.drop r := by
  induction r with
  | zero =>
    intro t arrivals rel rest t2 h
    simp only [signalBatch, Option.some.injEq, Prod.mk.injEq] at h
    obtain ⟨h1, _, h3⟩ := h
    subst h1
    subst h3
    simp
  | succ r ih =>
    intro t arrivals rel rest t2 h
    cases arrivals with
    | nil => simp [signalBatch] at h
    | cons a as =>
      simp only [signalBatch] at h
      cases hsb : signalBatch r (max t a) as with
      | none =>
        rw [hsb] at h
        simp at h
      | some x =>
        obtain ⟨rel2, t3, rest2⟩ := x
        rw [hsb] at h
        simp only [Option.some.injEq, Prod.mk.injEq] at h
        obtain ⟨h1, _, h3⟩ := h
        obtain ⟨hl, hd⟩ := ih (max t a) as rel2 rest2 t3 hsb
        subst h1
        subst h3
        constructor
        · simp [hl]
        · simpa using hd

theorem enqueuedOf_cons (e : LBEvent) (es : List LBEvent) :
    enqueuedOf (e :: es) = enqueuedOf [e] ++ enqueuedOf es := by
  cases e <;> simp [enqueuedOf]

theorem LBStep_rq (s : LBState) (e : LBEvent) :
    (LBStep s e).released ++ (LBStep s e).queue =
      s.released ++ (s.queue ++ enqueuedOf [e]) := by
  cases e with
  | reserve c =>
    simp only [LBStep, enqueuedOf]
    split <;> simp
  | enqueue c => simp [LBStep, enqueuedOf]
  | leak =>
    obtain ⟨cap, lvl, res, q, rel⟩ := s
    simp only [LBStep, enqueuedOf]
    cases q with
    | nil => simp
    | cons c q2 => simp

theorem LBfold_rq (es : List LBEvent) : ∀ s : LBState,
    (es.foldl LBStep s).released ++ (es.foldl LBStep s).queue =
      s.released ++ s.queue ++ enqueuedOf es := by
  induction es with
  | nil =>
    intro s
    simp [enqueuedOf]
  | cons e es ih =>
    intro s
    rw [List.foldl_cons, ih (LBStep s e), enqueuedOf_cons]
    rw [LBStep_rq s e]
    simp [List.append_assoc]

/-! ## Claim theorems -/

/-- Claim C1 (amended): for every `FixedWindow` call `allow_n(n)`
(`n` a u64, so `n < 2^64`), with
`passed = floor((now - window_start)/interval)`, if `passed ≥ 1` the call
performs a single reset — count is cleared and `window_start` advances by
`min(passed, u32::MAX) * interval` (the elapsed-window count is saturated
at `u32::MAX = 2^32 - 1` by the cast in the source; for
`passed < 2^32` this is exactly `passed * interval`) — and then admits
iff `n ≤ size`; if `passed = 0` there is no reset and the call admits
and stores `(count + n) mod 2^64` iff `(count + n) mod 2^64 ≤ size`
(the u64 admission sum wraps on overflow in a release build; a debug
build panics instead), leaving the state unchanged on rejection.  The
counter never exceeds `size`, and the window invariant
`next_win_time = last_update + interval` is preserved. -/
theorem C1_fixed_window_step (s : FixedWindowInner) (n now : Nat)
    (hpos : 0 < s.interval) (hinv : s.next_win_time = s.last_update + s.interval)
    (hn : n < 2 ^ 64) :
    (1 ≤ (now - s.last_update) / s.interval →
      (n ≤ s.size →
        s.allowN n now =
          (true,
            ⟨s.size, n, s.interval,
              s.last_update + s.interval * min ((now - s.last_update) / s.interval) (2 ^ 32 - 1),
              s.last_update + s.interval * min ((now - s.last_update) / s.interval) (2 ^ 32 - 1) +
                s.interval⟩)) ∧
      (s.size < n →
        s.allowN n now =
          (false,
            ⟨s.size, 0, s.interval,
              s.last_update + s.interval * min ((now - s.last_update) / s.interval) (2 ^ 32 - 1),
              s.last_update + s.interval * min ((now - s.last_update) / s.interval) (2 ^ 32 - 1) +
                s.interval⟩))) ∧
    ((now - s.last_update) / s.interval = 0 →
      ((s.count + n) % 2 ^ 64 ≤ s.size →
        s.allowN n now = (true, { s with count := (s.count + n) % 2 ^ 64 })) ∧
      (s.size < (s.count + n) % 2 ^ 64 → s.allowN n now = (false, s))) ∧
    (s.count ≤ s.size → ((s.allowN n now).2).count ≤ ((s.allowN n now).2).size) ∧
    ((s.allowN n now).2.next_win_time =
      (s.allowN n now).2.last_update + (s.allowN n now).2.interval) := by
  have hiff : s.next_win_time ≤ now ↔ 1 ≤ (now - s.last_update) / s.interval := by
    rw [Nat.one_le_div_iff hpos]
    omega
  have hm0 : (0 + n) % 2 ^ 64 = n := by
    rw [Nat.zero_add]
    exact Nat.mod_eq_of_lt hn
  refine ⟨?_, ?_, ?_, ?_⟩
  · intro hp
    have hc : s.next_win_time ≤ now := hiff.mpr hp
    constructor
    · intro hn2
      simp only [FixedWindowInner.allowN, FixedWindowInner.advance,
        FixedWindowInner.passWinCount, if_pos hc, hm0]
      rw [if_neg (Nat.not_lt.mpr hn2)]
    · intro hn2
      simp only [FixedWindowInner.allowN, FixedWindowInner.advance,
        FixedWindowInner.passWinCount, if_pos hc, hm0]
      rw [if_pos hn2]
  · intro hp
    have hc : ¬ s.next_win_time ≤ now := by
      intro hcon
      have h1 := hiff.mp hcon
      omega
    constructor
    · intro hn2
      simp only [FixedWindowInner.allowN, FixedWindowInner.advance, if_neg hc]
      rw [if_neg (Nat.not_lt.mpr hn2)]
    · intro hn2
      simp only [FixedWindowInner.allowN, FixedWindowInner.advance, if_neg hc]
      rw [if_pos hn2]
  · intro h
    simp only [FixedWindowInner.allowN, FixedWindowInner.advance, FixedWindowInner.passWinCount]
    by_cases hc : s.next_win_time ≤ now
    · rw [if_pos hc]
      split
      · simp
      · rename_i hcond
        simp at hcond ⊢
        exact hcond
    · rw [if_neg hc]
      split
      · exact h
      · rename_i hcond
        simp at hcond ⊢
        exact hcond
  · simp only [FixedWindowInner.allowN, FixedWindowInner.advance, FixedWindowInner.passWinCount]
    by_cases hc : s.next_win_time ≤ now
    · rw [if_pos hc]
      split <;> simp
    · rw [if_neg hc]
      split <;> simp [hinv]

/-- Claim C1 counterexample: with `interval = 1` ns and a window that has
been silent for `2^32` ns, `passed = floor((now - window_start)/interval)
= 2^32`, so the claim requires `window_start` to advance by
`passed * interval = 2^32`; the code's `as u32` cast saturates the
elapsed-window count at `2^32 - 1`, so `last_update` becomes `2^32 - 1`,
not `2^32`. -/
theorem C1_counterexample :
    (FixedWindowInner.allowN ⟨5, 3, 1, 0, 1⟩ 0 (2 ^ 32)).2.last_update = 2 ^ 32 - 1 ∧
    ((2 ^ 32 : Nat) - 0) / 1 = 2 ^ 32 ∧
    (0 : Nat) + 1 * (((2 ^ 32 : Nat) - 0) / 1) = 2 ^ 32 ∧
    (2 ^ 32 : Nat) - 1 ≠ 2 ^ 32 := by
  refine ⟨by decide, by norm_num, by norm_num, by norm_num⟩

/-- Witness for C1: a concrete in-window call (no reset due) that admits
3 units against a size of 5. -/
theorem C1_witness :
    FixedWindowInner.allowN ⟨5, 0, 10, 0, 10⟩ 3 0 = (true, ⟨5, 3, 10, 0, 10⟩) := by
  have h := C1_fixed_window_step ⟨5, 0, 10, 0, 10⟩ 3 0 (by decide) rfl (by decide)
  exact (h.2.1 (by decide)).1 (by decide)

/-- Claim C2 (code-bug evaluation): with `refill_interval = 1` ns and
`elapsed = 2^33` ns, the whole-interval count is `k = 2^33`, so the claim
requires `last_refill` to advance by `k * refill_interval = 2^33`; the
source truncates `k` to u32 (`interval_count as u32`), i.e. to
`2^33 % 2^32 = 0`, so `last_refill_time` stays `0` while
`k * refill_rate` tokens are still credited — the same elapsed time will
be credited again on the next call. -/
theorem C2_token_bucket_truncation_eval :
    TokenBucketInner.advance ⟨0, 2 ^ 40, 1, 1, 0⟩ (2 ^ 33) = ⟨2 ^ 33, 2 ^ 40, 1, 1, 0⟩ ∧
    ((2 ^ 33 : Nat) - 0) / 1 = 2 ^ 33 ∧
    (2 ^ 33 : Nat) % 2 ^ 32 = 0 ∧
    (0 : Nat) ≠ 0 + 1 * 2 ^ 33 := by
  refine ⟨by decide, by norm_num, by norm_num, by norm_num⟩

/-- Claim C8 (code-bug evaluation): the operand of
`refill_interval.checked_mul(...)` is `interval_count as u32` — a
silently truncating u64→u32 cast.  With `interval_count = 5 * 2^32` the
truncated operand is `0`: no fatal error is raised, the `checked_mul`
succeeds on the truncated value, and `last_refill_time` silently fails
to advance. -/
theorem C8_checked_mul_truncation_eval :
    TokenBucketInner.advance ⟨0, 2 ^ 50, 1, 1, 0⟩ (5 * 2 ^ 32) =
      ⟨5 * 2 ^ 32, 2 ^ 50, 1, 1, 0⟩ ∧
    (5 * 2 ^ 32 : Nat) % 2 ^ 32 = 0 ∧
    (5 * 2 ^ 32 : Nat) ≠ 0 := by
  refine ⟨by decide, by norm_num, by norm_num⟩

/-- Claim C3 (amended): for every `SlidingWindowLog` call `allow_n(n)`
whose u64 admission sum does not overflow (`len + n < 2^64` — in
particular every `n ≤ size`): if the log length plus `n` fits in
`size`, the call appends `n` copies of `now` and accepts without
pruning; otherwise it removes exactly the entries older than
`now - interval` (retaining `t ≥ now - interval`) and retries the same
test once, appending and accepting if it now passes, and rejecting with
no entries appended otherwise; admission is all-or-nothing and
`logs.length ≤ size` is preserved.  When the u64 sum wraps (release
build) the comparison uses the wrapped value, so the accept branch is
taken even though `len + n > size`, and the attempted `vec!` allocation
of `n` entries aborts the process instead of returning false (a debug
build panics at the add). -/
theorem C3_sliding_window_log (s : SlidingWindowLogInner) (n now : Nat)
    (hn : s.logs.length + n < 2 ^ 64) :
    (s.logs.length + n ≤ s.size →
      s.allowN n now = (true, { s with logs := s.logs ++ List.replicate n now })) ∧
    (s.size < s.logs.length + n →
      ((s.removeOlderThan (now - s.interval)).logs.length + n ≤ s.size →
        s.allowN n now =
          (true, { s with logs :=
            (s.removeOlderThan (now - s.interval)).logs ++ List.replicate n now })) ∧
      (s.size < (s.removeOlderThan (now - s.interval)).logs.length + n →
        s.allowN n now = (false, s.removeOlderThan (now - s.interval)))) ∧
    ((s.removeOlderThan (now - s.interval)).logs =
      s.logs.filter (fun t => now - s.interval ≤ t)) ∧
    (s.logs.length ≤ s.size → (s.allowN n now).2.logs.length ≤ s.size) := by
  have allowN_eq : s.allowN n now =
      if (s.tryAccept n now).1 then s.tryAccept n now
      else (s.removeOlderThan (now - s.interval)).tryAccept n now := rfl
  have tryAccept_pos : ∀ (s2 : SlidingWindowLogInner), s2.logs.length + n < 2 ^ 64 →
      s2.logs.length + n ≤ s2.size →
      s2.tryAccept n now = (true, { s2 with logs := s2.logs ++ List.replicate n now }) := by
    intro s2 hlt h
    simp only [SlidingWindowLogInner.tryAccept]
    rw [Nat.mod_eq_of_lt hlt, if_pos h]
  have tryAccept_neg : ∀ (s2 : SlidingWindowLogInner), s2.logs.length + n < 2 ^ 64 →
      ¬ s2.logs.length + n ≤ s2.size →
      s2.tryAccept n now = (false, s2) := by
    intro s2 hlt h
    simp only [SlidingWindowLogInner.tryAccept]
    rw [Nat.mod_eq_of_lt hlt, if_neg h]
  have hps : (s.removeOlderThan (now - s.interval)).size = s.size := rfl
  have hfl : (s.removeOlderThan (now - s.interval)).logs.length ≤ s.logs.length :=
    List.length_filter_le _ _
  have hprlt : (s.removeOlderThan (now - s.interval)).logs.length + n < 2 ^ 64 :=
    Nat.lt_of_le_of_lt (Nat.add_le_add_right hfl n) hn
  refine ⟨?_, ?_, rfl, ?_⟩
  · intro h
    rw [allowN_eq, tryAccept_pos s hn h]
    rfl
  · intro h1
    have hne : ¬ s.logs.length + n ≤ s.size := by omega
    constructor
    · intro h2
      rw [allowN_eq, tryAccept_neg s hn hne, if_neg (by simp), tryAccept_pos _ hprlt h2]
      rfl
    · intro h2
      rw [allowN_eq, tryAccept_neg s hn hne, if_neg (by simp),
        tryAccept_neg _ hprlt (by omega : ¬ (s.removeOlderThan (now - s.interval)).logs.length + n ≤
          (s.removeOlderThan (now - s.interval)).size)]
  · intro h
    by_cases h1 : s.logs.length + n ≤ s.size
    · rw [allowN_eq, tryAccept_pos s hn h1]
      simp
      omega
    · rw [allowN_eq, tryAccept_neg s hn h1, if_neg (by simp)]
      by_cases h2 : (s.removeOlderThan (now - s.interval)).logs.length + n ≤
          (s.removeOlderThan (now - s.interval)).size
      · rw [tryAccept_pos _ hprlt h2]
        simp only [SlidingWindowLogInner.removeOlderThan] at h2 ⊢
        simp at h2 ⊢
        omega
      · rw [tryAccept_neg _ hprlt h2]
        have hf := List.length_filter_le (fun t => now - s.interval ≤ t) s.logs
        simp only [SlidingWindowLogInner.removeOlderThan] at hf ⊢
        simp at hf ⊢
        omega

/-- Claim C3 counterexample: at `size = 1` with one entry logged and
`n = u64::MAX`, the release-build u64 sum `1 + (2^64 - 1)` wraps to 0,
so the admission test passes and the accept branch is taken even though
`len + n > size` — the call does not "return false with no entries
appended" as the claim requires (the source then aborts inside the
`vec!` allocation of `n` entries). -/
theorem C3_counterexample :
    (SlidingWindowLogInner.allowN ⟨1, 10, [0]⟩ (2 ^ 64 - 1) 5).1 = true ∧
    (1 + (2 ^ 64 - 1)) % 2 ^ 64 = 0 ∧
    ¬ (1 : Nat) + (2 ^ 64 - 1) ≤ 1 := by
  refine ⟨rfl, by decide, by decide⟩

/-- Witness for C3: a concrete slow-path call — the fast path fails, one
expired entry is pruned, and the retry admits the request. -/
theorem C3_witness :
    SlidingWindowLogInner.allowN ⟨2, 10, [0, 3]⟩ 1 12 = (true, ⟨2, 10, [3, 12]⟩) := by
  have h := C3_sliding_window_log ⟨2, 10, [0, 3]⟩ 1 12 (by decide)
  exact (h.2.1 (by decide)).1 (by decide)

/-- Claim C4 (amended): every `SlidingWindowCount` call `allow_n(n)`
whose u64 admission sum does not overflow (`sum + n < 2^64` — in
particular every `n ≤ win_size`) first computes
`bucket_passed = floor((now - last_update)/bucket_interval)` capped at
`bucket_count`, zeroes exactly the `bucket_passed` buckets starting at
`last_index` moving forward (a cap-reached pass clears every bucket),
advances `last_index` by `bucket_passed` modulo `bucket_count` and sets
`last_update = now`; it then admits and adds `n` to the bucket at the
new `last_index` iff the bucket sum plus `n` is at most `win_size`,
leaving every bucket unchanged otherwise; `sum(buckets) ≤ win_size` is
preserved.  When the u64 sum wraps (release build) the comparison uses
the wrapped value, so a request with `sum + n > win_size` is admitted
and the bucket wraps modulo `2^64` (a debug build panics at the add). -/
theorem C4_sliding_window_count (s : SlidingWindowCountInner) (n now : Nat)
    (hlen : 0 < s.buckets.length)
    (hsum : (s.updateBuckets now).totalCount + n < 2 ^ 64) :
    ((s.updateBuckets now).last_update = now) ∧
    ((s.updateBuckets now).last_index =
      (s.last_index + s.bucketPassed now) % s.buckets.length) ∧
    (s.bucketPassed now = min ((now - s.last_update) / s.bucket_interval) s.buckets.length) ∧
    (∀ j, (∃ i, i < s.bucketPassed now ∧ (i + s.last_index) % s.buckets.length = j) →
      (s.updateBuckets now).buckets.getD j 0 = 0) ∧
    (∀ j, (¬ ∃ i, i < s.bucketPassed now ∧ (i + s.last_index) % s.buckets.length = j) →
      (s.updateBuckets now).buckets.getD j 0 = s.buckets.getD j 0) ∧
    (s.bucketPassed now = s.buckets.length →
      (s.updateBuckets now).buckets = List.replicate s.buckets.length 0) ∧
    ((s.updateBuckets now).totalCount + n ≤ s.win_size →
      s.allowN n now = (true, (s.updateBuckets now).addRequests n) ∧
      ((s.updateBuckets now).addRequests n).buckets.getD ((s.updateBuckets now).last_index) 0 =
        (s.updateBuckets now).buckets.getD ((s.updateBuckets now).last_index) 0 + n) ∧
    (s.win_size < (s.updateBuckets now).totalCount + n →
      s.allowN n now = (false, s.updateBuckets now)) ∧
    (s.buckets.sum ≤ s.win_size → ((s.allowN n now).2).buckets.sum ≤ s.win_size) := by
  have allowN_eq : s.allowN n now =
      if ((s.updateBuckets now).totalCount + n) % 2 ^ 64 ≤ (s.updateBuckets now).win_size then
        (true, (s.updateBuckets now).addRequests n)
      else (false, s.updateBuckets now) := rfl
  have hmod : ((s.updateBuckets now).totalCount + n) % 2 ^ 64 =
      (s.updateBuckets now).totalCount + n := Nat.mod_eq_of_lt hsum
  have hble : (s.updateBuckets now).buckets.getD (s.updateBuckets now).last_index 0 ≤
      (s.updateBuckets now).totalCount := list_getD_le_sum _ _
  have hbmod : ((s.updateBuckets now).buckets.getD (s.updateBuckets now).last_index 0 + n) %
      2 ^ 64 = (s.updateBuckets now).buckets.getD (s.updateBuckets now).last_index 0 + n :=
    Nat.mod_eq_of_lt (Nat.lt_of_le_of_lt (Nat.add_le_add_right hble n) hsum)
  have addReq_eq : (s.updateBuckets now).addRequests n =
      { s.updateBuckets now with buckets :=
          ((s.updateBuckets now).buckets.set (s.updateBuckets now).last_index
            ((s.updateBuckets now).buckets.getD (s.updateBuckets now).last_index 0 + n)) } := by
    unfold SlidingWindowCountInner.addRequests
    rw [hbmod]
  have hupdlen : (s.updateBuckets now).buckets.length = s.buckets.length :=
    clearFrom_length s.buckets s.last_index (s.bucketPassed now)
  have hidx : (s.updateBuckets now).last_index < s.buckets.length := by
    show (s.last_index + s.bucketPassed now) % s.buckets.length < s.buckets.length
    exact Nat.mod_lt _ hlen
  have hidx2 : (s.updateBuckets now).last_index < (s.updateBuckets now).buckets.length := by
    rw [hupdlen]
    exact hidx
  refine ⟨rfl, rfl, rfl, ?_, ?_, ?_, ?_, ?_, ?_⟩
  · intro j hj
    exact clearFrom_getD_hit s.buckets s.last_index (s.bucketPassed now) j hlen hj
  · intro j hj
    exact clearFrom_getD_miss s.buckets s.last_index (s.bucketPassed now) j hj
  · intro hp
    show clearFrom s.buckets s.last_index (s.bucketPassed now) = _
    rw [hp]
    exact clearFrom_all s.buckets s.last_index hlen
  · intro h
    have h2 : ((s.updateBuckets now).totalCount + n) % 2 ^ 64 ≤
        (s.updateBuckets now).win_size := by
      rw [hmod]
      exact h
    constructor
    · rw [allowN_eq, if_pos h2]
    · rw [addReq_eq]
      exact list_getD_set_eq _ _ _ hidx2
  · intro h
    have h2 : ¬ ((s.updateBuckets now).totalCount + n) % 2 ^ 64 ≤
        (s.updateBuckets now).win_size := by
      rw [hmod]
      have hw : (s.updateBuckets now).win_size = s.win_size := rfl
      omega
    rw [allowN_eq, if_neg h2]
  · intro h
    by_cases hc : ((s.updateBuckets now).totalCount + n) % 2 ^ 64 ≤
        (s.updateBuckets now).win_size
    · rw [allowN_eq, if_pos hc]
      rw [hmod] at hc
      rw [addReq_eq]
      show ((s.updateBuckets now).buckets.set (s.updateBuckets now).last_index
        ((s.updateBuckets now).buckets.getD (s.updateBuckets now).last_index 0 + n)).sum ≤
          s.win_size
      rw [list_sum_set_add _ _ _ hidx2]
      exact hc
    · rw [allowN_eq, if_neg hc]
      show (s.updateBuckets now).buckets.sum ≤ s.win_size
      have hle : (clearFrom s.buckets s.last_index (s.bucketPassed now)).sum ≤ s.buckets.sum :=
        clearFrom_sum_le _ _ _
      exact Nat.le_trans hle h

/-- Claim C4 counterexample: at `win_size = 1` with a bucket sum of 1
and `n = u64::MAX`, the release-build u64 sum `1 + (2^64 - 1)` wraps to
0, so the admission test passes — the claim requires rejection with
every bucket unchanged, but the code admits and the bucket wraps to 0. -/
theorem C4_counterexample :
    SlidingWindowCountInner.allowN ⟨[1], 1, 10, 0, 0⟩ (2 ^ 64 - 1) 0 =
      (true, ⟨[0], 1, 10, 0, 0⟩) ∧
    ¬ (1 : Nat) + (2 ^ 64 - 1) ≤ 1 := by
  refine ⟨by decide, by decide⟩

/-- Witness for C4: a concrete two-bucket limiter in which one elapsed
bucket interval clears one bucket; `last_update` is set to `now`. -/
theorem C4_witness : (SlidingWindowCountInner.updateBuckets ⟨[2, 0], 3, 10, 0, 0⟩ 10).last_update = 10 :=
  (C4_sliding_window_count ⟨[2, 0], 3, 10, 0, 0⟩ 1 10 (by decide) (by decide)).1

/-- Claim C5 (amended): each completed iteration of the leak loop sleeps
until `leak_interval` has elapsed since `last_leak_time`, sets
`last_leak_time` to the post-sleep instant, and then signals exactly
`leak_rate` waiters, popped from the FIFO queue in order; if the queue
runs empty the loop BLOCKS in `recv` until the next waiter arrives (the
release budget carries over while blocked rather than being discarded),
so after an idle period more than `leak_rate` releases can fall within
one wall-clock `leak_interval`. -/
theorem C5_leak_loop_batch (rate interval : Nat) (s s2 : LeakLoopState)
    (arrivals rel rest : List Nat)
    (h : leakIter rate interval s arrivals = some (rel, s2, rest)) :
    rel.length = rate ∧ rest = arrivals.drop rate ∧
    s2.lastLeak = s.time + (interval - (s.time - s.lastLeak)) := by
  simp only [leakIter] at h
  cases hsb : signalBatch rate (s.time + (interval - (s.time - s.lastLeak))) arrivals with
  | none =>
    rw [hsb] at h
    simp at h
  | some x =>
    obtain ⟨rel2, t2, rest2⟩ := x
    rw [hsb] at h
    simp only [Option.some.injEq, Prod.mk.injEq] at h
    obtain ⟨h1, h2, h3⟩ := h
    obtain ⟨hl, hd⟩ := signalBatch_spec rate _ arrivals rel2 rest2 t2 hsb
    subst h1
    subst h3
    rw [← h2]
    exact ⟨hl, hd, rfl⟩

/-- Claim C5 counterexample: with `leak_rate = 1` and
`leak_interval = 10`, a loop idle from instant 0 blocks in `recv`; a
waiter arriving at instant 50 is signalled at 50, and because the next
iteration's `wait_time` saturates to zero, a waiter arriving at 51 is
signalled at 51 — two releases one time unit apart, i.e. more than
`leak_rate` releases inside one `leak_interval`, and nothing was
discarded while the queue was empty. -/
theorem C5_counterexample :
    leakIter 1 10 ⟨0, 0⟩ [50, 51] = some ([50], ⟨10, 50⟩, [51]) ∧
    leakIter 1 10 ⟨10, 50⟩ [51] = some ([51], ⟨50, 51⟩, []) ∧
    51 - 50 < 10 := by
  refine ⟨by decide, by decide, by decide⟩

/-- Witness for C5: the amended theorem applied to the first concrete
iteration above. -/
theorem C5_witness :
    ([50] : List Nat).length = 1 ∧ ([51] : List Nat) = [50, 51].drop 1 ∧
    (10 : Nat) = 0 + (10 - (0 - 0)) :=
  C5_leak_loop_batch 1 10 ⟨0, 0⟩ ⟨10, 50⟩ [50, 51] [50] [51] (by decide)

/-- Claim C6 (amended): for every call whose u64 admission sum does not
overflow (`count + n`, `len + n`, `sum + n < 2^64` — in particular
every `n` up to the configured size), `allow_n(n)` either admits all
`n` units — recording exactly `n` (FixedWindow adds `n` to the
post-reset count, TokenBucket subtracts `n` from the post-refill
tokens, SlidingWindowLog appends `n` timestamps, SlidingWindowCount
adds `n` to one bucket) — or admits none: on rejection the state is
exactly the post-time-advance state (in particular a rejected
TokenBucket call still performs the refill side effect); TokenBucket's
test `n ≤ tokens` involves no sum and is all-or-nothing for every `n`.
When an admission sum wraps (release build), FixedWindow and
SlidingWindowCount admit while recording the wrapped counter value, and
SlidingWindowLog's accept branch aborts inside the `vec!` allocation
(debug builds panic at the add). -/
theorem C6_all_or_nothing (fw : FixedWindowInner) (tb : TokenBucketInner)
    (swl : SlidingWindowLogInner) (swc : SlidingWindowCountInner) (n now : Nat)
    (hfw : (fw.advance now).count + n < 2 ^ 64)
    (hsl : swl.logs.length + n < 2 ^ 64)
    (hsc : (swc.updateBuckets now).totalCount + n < 2 ^ 64) :
    (fw.allowN n now = (true, { fw.advance now with count := (fw.advance now).count + n }) ∨
      fw.allowN n now = (false, fw.advance now)) ∧
    (tb.allowN n now = (true, { tb.advance now with tokens := (tb.advance now).tokens - n }) ∨
      tb.allowN n now = (false, tb.advance now)) ∧
    (swl.allowN n now = (true, { swl with logs := swl.logs ++ List.replicate n now }) ∨
      swl.allowN n now = (true, { swl with logs :=
        (swl.removeOlderThan (now - swl.interval)).logs ++ List.replicate n now }) ∨
      swl.allowN n now = (false, swl.removeOlderThan (now - swl.interval))) ∧
    (swc.allowN n now = (true, (swc.updateBuckets now).addRequests n) ∨
      swc.allowN n now = (false, swc.updateBuckets now)) := by
  have hfwmod : ((fw.advance now).count + n) % 2 ^ 64 = (fw.advance now).count + n :=
    Nat.mod_eq_of_lt hfw
  have fw_eq : fw.allowN n now =
      if (fw.advance now).size < ((fw.advance now).count + n) % 2 ^ 64 then
        (false, fw.advance now)
      else (true, { fw.advance now with count := ((fw.advance now).count + n) % 2 ^ 64 }) := rfl
  have tb_eq : tb.allowN n now =
      if (tb.advance now).tokens < n then (false, tb.advance now)
      else (true, { tb.advance now with tokens := (tb.advance now).tokens - n }) := rfl
  have swl_eq : swl.allowN n now =
      if (swl.tryAccept n now).1 then swl.tryAccept n now
      else (swl.removeOlderThan (now - swl.interval)).tryAccept n now := rfl
  have try_pos : ∀ (s2 : SlidingWindowLogInner), s2.logs.length + n < 2 ^ 64 →
      s2.logs.length + n ≤ s2.size →
      s2.tryAccept n now = (true, { s2 with logs := s2.logs ++ List.replicate n now }) := by
    intro s2 hlt h
    simp only [SlidingWindowLogInner.tryAccept]
    rw [Nat.mod_eq_of_lt hlt, if_pos h]
  have try_neg : ∀ (s2 : SlidingWindowLogInner), s2.logs.length + n < 2 ^ 64 →
      ¬ s2.logs.length + n ≤ s2.size →
      s2.tryAccept n now = (false, s2) := by
    intro s2 hlt h
    simp only [SlidingWindowLogInner.tryAccept]
    rw [Nat.mod_eq_of_lt hlt, if_neg h]
  have hfl : (swl.removeOlderThan (now - swl.interval)).logs.length ≤ swl.logs.length :=
    List.length_filter_le _ _
  have hprlt : (swl.removeOlderThan (now - swl.interval)).logs.length + n < 2 ^ 64 :=
    Nat.lt_of_le_of_lt (Nat.add_le_add_right hfl n) hsl
  have hscmod : ((swc.updateBuckets now).totalCount + n) % 2 ^ 64 =
      (swc.updateBuckets now).totalCount + n := Nat.mod_eq_of_lt hsc
  have swc_eq : swc.allowN n now =
      if ((swc.updateBuckets now).totalCount + n) % 2 ^ 64 ≤
          (swc.updateBuckets now).win_size then
        (true, (swc.updateBuckets now).addRequests n)
      else (false, swc.updateBuckets now) := rfl
  refine ⟨?_, ?_, ?_, ?_⟩
  · by_cases hc : (fw.advance now).size < (fw.advance now).count + n
    · exact Or.inr (by rw [fw_eq, hfwmod, if_pos hc])
    · exact Or.inl (by rw [fw_eq, hfwmod, if_neg hc])
  · by_cases hc : (tb.advance now).tokens < n
    · exact Or.inr (by rw [tb_eq, if_pos hc])
    · exact Or.inl (by rw [tb_eq, if_neg hc])
  · by_cases h1 : swl.logs.length + n ≤ swl.size
    · refine Or.inl ?_
      rw [swl_eq, try_pos swl hsl h1]
      rfl
    · by_cases h2 : (swl.removeOlderThan (now - swl.interval)).logs.length + n ≤
          (swl.removeOlderThan (now - swl.interval)).size
      · refine Or.inr (Or.inl ?_)
        rw [swl_eq, try_neg swl hsl h1, if_neg (by simp), try_pos _ hprlt h2]
        rfl
      · refine Or.inr (Or.inr ?_)
        rw [swl_eq, try_neg swl hsl h1, if_neg (by simp), try_neg _ hprlt h2]
  · by_cases hc : (swc.updateBuckets now).totalCount + n ≤ (swc.updateBuckets now).win_size
    · exact Or.inl (by rw [swc_eq, hscmod, if_pos hc])
    · exact Or.inr (by rw [swc_eq, hscmod, if_neg hc])

/-- Claim C6 counterexample: FixedWindow at `size = 5`, `count = 1`,
called with `n = u64::MAX`: the release-build u64 sum wraps to 0, the
test passes, and the call returns true while storing count 0 — it
neither admits all `n` recording exactly `n` (the counter decreased)
nor admits none (it returned true). -/
theorem C6_counterexample :
    FixedWindowInner.allowN ⟨5, 1, 10, 0, 10⟩ (2 ^ 64 - 1) 0 = (true, ⟨5, 0, 10, 0, 10⟩) ∧
    (0 : Nat) ≠ 1 + (2 ^ 64 - 1) := by
  refine ⟨by decide, by decide⟩

/-- Witness for C6: the amended theorem at concrete in-range states of
all four limiters. -/
theorem C6_witness :
    (FixedWindowInner.allowN ⟨5, 2, 10, 0, 10⟩ 1 7 = (true, ⟨5, 3, 10, 0, 10⟩) ∨
      FixedWindowInner.allowN ⟨5, 2, 10, 0, 10⟩ 1 7 = (false, ⟨5, 2, 10, 0, 10⟩)) ∧
    (TokenBucketInner.allowN ⟨3, 8, 2, 10, 0⟩ 1 7 = (true, ⟨2, 8, 2, 10, 0⟩) ∨
      TokenBucketInner.allowN ⟨3, 8, 2, 10, 0⟩ 1 7 = (false, ⟨3, 8, 2, 10, 0⟩)) ∧
    (SlidingWindowLogInner.allowN ⟨2, 10, [4]⟩ 1 7 = (true, ⟨2, 10, [4, 7]⟩) ∨
      SlidingWindowLogInner.allowN ⟨2, 10, [4]⟩ 1 7 = (true, ⟨2, 10, [4, 7]⟩) ∨
      SlidingWindowLogInner.allowN ⟨2, 10, [4]⟩ 1 7 = (false, ⟨2, 10, [4]⟩)) ∧
    (SlidingWindowCountInner.allowN ⟨[1, 0], 3, 10, 0, 0⟩ 1 7 = (true, ⟨[2, 0], 3, 10, 7, 0⟩) ∨
      SlidingWindowCountInner.allowN ⟨[1, 0], 3, 10, 0, 0⟩ 1 7 =
        (false, ⟨[1, 0], 3, 10, 7, 0⟩)) :=
  C6_all_or_nothing ⟨5, 2, 10, 0, 10⟩ ⟨3, 8, 2, 10, 0⟩ ⟨2, 10, [4]⟩ ⟨[1, 0], 3, 10, 0, 0⟩ 1 7
    (by decide) (by decide) (by decide)

/-- Claim C7 (amended): the constructors perform no parameter
validation — zero size/capacity, zero rates and zero intervals are all
accepted, producing limiters (a zero-size FixedWindow then rejects every
positive request); the only degenerate parameter that makes construction
fail is SlidingWindowCount's `bucket_count = 0`, which aborts through
the panicking division `interval.div_f64(0)`, while any positive
`bucket_count` constructs successfully. -/
theorem C7_constructors (iv w i b now n : Nat) (hn : n + 1 < 2 ^ 64) :
    (FixedWindowInner.new 0 iv now).size = 0 ∧
    ((FixedWindowInner.new 0 iv now).allowN (n + 1) now).1 = false ∧
    (TokenBucketInner.new 0 0 iv now).tokens = 0 ∧
    (SlidingWindowLogInner.new 0 iv).size = 0 ∧
    (LeakyBucketInner.new 0 0 iv now).capacity = 0 ∧
    SlidingWindowCountInner.new w i 0 now = none ∧
    (SlidingWindowCountInner.new w i (b + 1) now).isSome = true := by
  refine ⟨rfl, ?_, rfl, rfl, rfl, rfl, ?_⟩
  · have hsz : ((FixedWindowInner.new 0 iv now).advance now).size = 0 := by
      unfold FixedWindowInner.advance
      split <;> rfl
    have hct : ((FixedWindowInner.new 0 iv now).advance now).count = 0 := by
      unfold FixedWindowInner.advance
      split <;> rfl
    have hmod : (((FixedWindowInner.new 0 iv now).advance now).count + (n + 1)) % 2 ^ 64 =
        n + 1 := by
      rw [hct, Nat.zero_add]
      exact Nat.mod_eq_of_lt hn
    simp only [FixedWindowInner.allowN]
    split
    · rfl
    · rename_i hcond
      rw [hmod, hsz] at hcond
      exact absurd (Nat.succ_pos n) hcond
  · simp [SlidingWindowCountInner.new]

/-- Claim C7 counterexample: `FixedWindow::new(0, ...)` succeeds — it
returns a fully-formed zero-size limiter (which then rejects a 1-unit
request) instead of failing at construction. -/
theorem C7_counterexample :
    FixedWindowInner.new 0 1000000000 0 = ⟨0, 0, 1000000000, 0, 1000000000⟩ ∧
    (FixedWindowInner.allowN ⟨0, 0, 1000000000, 0, 1000000000⟩ 1 0).1 = false := by
  refine ⟨by decide, by decide⟩

/-- Witness for C7: the zero-size FixedWindow produced by the
unvalidated constructor rejects a one-unit request. -/
theorem C7_witness : ((FixedWindowInner.new 0 1000000000 0).allowN 1 0).1 = false :=
  (C7_constructors 1000000000 3 50 4 0 0 (by decide)).2.1

/-- Claim C9 (amended): release order is FIFO with respect to enqueue
order on the channel — over any interleaving of reserve, enqueue and
leak events, the released callers followed by the still-queued callers
are exactly the enqueued callers in enqueue order (so signals are
delivered in enqueue order); reservation order alone does not determine
release order, because `try_allow` and `create_notify` are separate
critical sections. -/
theorem C9_fifo_release (capacity : Nat) (es : List LBEvent) :
    (LBRun capacity es).released ++ (LBRun capacity es).queue = enqueuedOf es := by
  unfold LBRun
  rw [LBfold_rq]
  simp

/-- Claim C9 counterexample: caller 0 completes its reservation
(`try_allow`) before caller 1, but caller 1 enqueues first because the
two critical sections are separate; the leak loop then signals caller 1
before caller 0 — reservation order does not imply release order. -/
theorem C9_counterexample :
    (LBRun 2 [LBEvent.reserve 0, LBEvent.reserve 1, LBEvent.enqueue 1, LBEvent.enqueue 0,
      LBEvent.leak, LBEvent.leak]).reserved = [0, 1] ∧
    (LBRun 2 [LBEvent.reserve 0, LBEvent.reserve 1, LBEvent.enqueue 1, LBEvent.enqueue 0,
      LBEvent.leak, LBEvent.leak]).released = [1, 0] := by
  refine ⟨by decide, by decide⟩

/-- Claim C10: in any reachable state (expressed through the reachable
invariants `count ≤ size`, `logs.length ≤ size`, `sum(buckets) ≤
win_size`, together with the u64 typing of the counter fields —
`count`, `logs.length` and `sum(buckets)` are u64 values, hence below
`2^64`), `allow_n(0)` returns true on all four non-blocking limiters
and leaves the consumption accounting unchanged apart from the normal
time-advance bookkeeping (SlidingWindowLog is entirely unchanged — the
fast path accepts without pruning). -/
theorem C10_allow_zero (fw : FixedWindowInner) (tb : TokenBucketInner)
    (swl : SlidingWindowLogInner) (swc : SlidingWindowCountInner) (now : Nat)
    (h1 : fw.count ≤ fw.size) (h2 : swl.logs.length ≤ swl.size)
    (h3 : swc.buckets.sum ≤ swc.win_size)
    (hfw64 : fw.count < 2 ^ 64) (hsl64 : swl.logs.length < 2 ^ 64)
    (hsc64 : swc.buckets.sum < 2 ^ 64) :
    fw.allowN 0 now = (true, fw.advance now) ∧
    tb.allowN 0 now = (true, tb.advance now) ∧
    swl.allowN 0 now = (true, swl) ∧
    swc.allowN 0 now = (true, swc.updateBuckets now) := by
  refine ⟨?_, ?_, ?_, ?_⟩
  · have hac : (fw.advance now).count ≤ (fw.advance now).size := by
      unfold FixedWindowInner.advance
      split
      · simp
      · exact h1
    have hac64 : (fw.advance now).count < 2 ^ 64 := by
      unfold FixedWindowInner.advance
      split
      · exact Nat.one_le_two_pow
      · exact hfw64
    have hm : ((fw.advance now).count + 0) % 2 ^ 64 = (fw.advance now).count := by
      rw [Nat.add_zero]
      exact Nat.mod_eq_of_lt hac64
    have heq : fw.allowN 0 now =
        if (fw.advance now).size < ((fw.advance now).count + 0) % 2 ^ 64 then
          (false, fw.advance now)
        else (true, { fw.advance now with count := ((fw.advance now).count + 0) % 2 ^ 64 }) := rfl
    rw [heq, hm, if_neg (by omega)]
  · have heq : tb.allowN 0 now =
        if (tb.advance now).tokens < 0 then (false, tb.advance now)
        else (true, { tb.advance now with tokens := (tb.advance now).tokens - 0 }) := rfl
    rw [heq, if_neg (by omega)]
    rfl
  · have h2b : swl.logs.length + 0 ≤ swl.size := by omega
    have hlt : swl.logs.length + 0 < 2 ^ 64 := by
      rw [Nat.add_zero]
      exact hsl64
    have heq : swl.allowN 0 now =
        if (swl.tryAccept 0 now).1 then swl.tryAccept 0 now
        else (swl.removeOlderThan (now - swl.interval)).tryAccept 0 now := rfl
    have htry : swl.tryAccept 0 now =
        (true, { swl with logs := swl.logs ++ List.replicate 0 now }) := by
      simp only [SlidingWindowLogInner.tryAccept]
      rw [Nat.mod_eq_of_lt hlt, if_pos h2b]
    rw [heq, htry]
    simp
  · have hsum0 : (swc.updateBuckets now).totalCount ≤ swc.buckets.sum :=
      clearFrom_sum_le _ _ _
    have hlt : (swc.updateBuckets now).totalCount + 0 < 2 ^ 64 := by
      rw [Nat.add_zero]
      exact Nat.lt_of_le_of_lt hsum0 hsc64
    have hle : ((swc.updateBuckets now).totalCount + 0) % 2 ^ 64 ≤
        (swc.updateBuckets now).win_size := by
      rw [Nat.mod_eq_of_lt hlt, Nat.add_zero]
      exact Nat.le_trans hsum0 h3
    have heq : swc.allowN 0 now =
        if ((swc.updateBuckets now).totalCount + 0) % 2 ^ 64 ≤
            (swc.updateBuckets now).win_size then
          (true, (swc.updateBuckets now).addRequests 0)
        else (false, swc.updateBuckets now) := rfl
    rw [heq, if_pos hle]
    have hb64 : (swc.updateBuckets now).buckets.getD (swc.updateBuckets now).last_index 0 + 0 <
        2 ^ 64 := by
      rw [Nat.add_zero]
      exact Nat.lt_of_le_of_lt (Nat.le_trans (list_getD_le_sum _ _) hsum0) hsc64
    have hadd : (swc.updateBuckets now).addRequests 0 = swc.updateBuckets now := by
      unfold SlidingWindowCountInner.addRequests
      rw [Nat.mod_eq_of_lt hb64, Nat.add_zero, list_set_getD_self]
    rw [hadd]

/-- Witness for C10: `allow_n(0)` on concrete in-invariant states of all
four limiters. -/
theorem C10_witness :
    FixedWindowInner.allowN ⟨5, 2, 10, 0, 10⟩ 0 7 =
      (true, FixedWindowInner.advance ⟨5, 2, 10, 0, 10⟩ 7) ∧
    TokenBucketInner.allowN ⟨3, 8, 2, 10, 0⟩ 0 7 =
      (true, TokenBucketInner.advance ⟨3, 8, 2, 10, 0⟩ 7) ∧
    SlidingWindowLogInner.allowN ⟨2, 10, [4]⟩ 0 7 = (true, ⟨2, 10, [4]⟩) ∧
    SlidingWindowCountInner.allowN ⟨[1, 0], 3, 10, 0, 0⟩ 0 7 =
      (true, SlidingWindowCountInner.updateBuckets ⟨[1, 0], 3, 10, 0, 0⟩ 7) :=
  C10_allow_zero ⟨5, 2, 10, 0, 10⟩ ⟨3, 8, 2, 10, 0⟩ ⟨2, 10, [4]⟩ ⟨[1, 0], 3, 10, 0, 0⟩ 7
    (by decide) (by decide) (by decide) (by decide) (by decide) (by decide)

end DevkitRl
